import Mathlib

/-!
# GoCache: a shallow embedding of the in-process expiring key/value cache

This file embeds the cache engine of the GoCache repository (`main.go` and
the accompanying unnamed source file) into Lean 4 and proves the spec's
claims about it.

Modelling conventions:
* The Go map `map[string]*item` is modelled as an association list
  `List (String × item)`; Go maps have unique keys, which the operations
  below preserve (insertion erases the key first).
* `time.Now().UnixNano()` is modelled by an explicit `now : Int` parameter
  passed to each operation: every occurrence of `time.Now()` during one
  operation is taken at the instant the operation runs.  Time arithmetic is
  exact `Int` arithmetic (int64 nanosecond values never overflow at the
  scales involved).
* The `readOnly` field is a Go `int32` updated with `atomic.AddInt32`;
  32-bit two's-complement wraparound is modelled explicitly.
* The `sync.RWMutex` has no sequential content and is dropped; operations
  are functions on the cache state, mutating ones return the new state.
-/

set_option autoImplicit false

namespace GoCache

/-- `item` from the source: one cached value with its absolute expiry
instant (`UnixNano`). -/
structure item where
  val : String
  expiry : Int
deriving DecidableEq, Repr

/-- The Go `map[string]*item`, as an association list with unique keys. -/
abbrev ItemMap := List (String × item)

/-- Go map read `m[k]`: the value stored at `k`, if any. -/
def mapGet (m : ItemMap) (k : String) : Option item :=
  match m with
  | [] => none
  | (k', v) :: rest => if k' = k then some v else mapGet rest k

/-- Go `delete(m, k)`: remove the binding of `k` (no-op when absent). -/
def mapErase (m : ItemMap) (k : String) : ItemMap :=
  match m with
  | [] => []
  | (k', v) :: rest => if k' = k then mapErase rest k else (k', v) :: mapErase rest k

/-- Go map write `m[k] = v`: bind `k` to `v`, replacing any old binding. -/
def mapInsert (m : ItemMap) (k : String) (v : item) : ItemMap :=
  (k, v) :: mapErase m k

/-- Keys of the map are pairwise distinct (every Go map satisfies this). -/
def keysNodup (m : ItemMap) : Prop :=
  (m.map Prod.fst).Nodup

instance (m : ItemMap) : Decidable (keysNodup m) := by
  unfold keysNodup; infer_instance

/-- 32-bit two's-complement wraparound, for the `int32` field `readOnly`. -/
def int32wrap (x : Int) : Int :=
  (x + 2 ^ 31) % 2 ^ 32 - 2 ^ 31

/-- `Cache` from the source.  The mutex carries no sequential state and is
omitted; `items`, `defaultExpiry` (nanoseconds) and `readOnly` are kept. -/
structure Cache where
  items : ItemMap
  defaultExpiry : Int
  readOnly : Int
deriving DecidableEq, Repr

/-- `NewCache`: empty map, given default expiry, `readOnly` zero-valued. -/
def NewCache (ed : Int) : Cache :=
  { items := [], defaultExpiry := ed, readOnly := 0 }

/-- `Cache.delete` (the lower-case internal helper): unconditional removal
of `k` under the exclusive lock. -/
def Cache.deleteKey (c : Cache) (k : String) : Cache :=
  { c with items := mapErase c.items k }

/-- `SaveAndExit`: `atomic.AddInt32(&c.readOnly, 1)`.  The `string`
argument is never read by the body. -/
def SaveAndExit (c : Cache) (_k : String) : Cache :=
  { c with readOnly := int32wrap (c.readOnly + 1) }

/-- Scan phase of `cleanup`: under the read lock, walk the entries and
collect every key whose entry satisfies
`time.Now().UnixNano() > item.expiry`. -/
def cleanupScan (m : ItemMap) (now : Int) : List String :=
  match m with
  | [] => []
  | (k, v) :: rest =>
    if now > v.expiry then k :: cleanupScan rest now else cleanupScan rest now

/-- Delete phase of `cleanup`: under the write lock, `delete` each
collected key in order. -/
def cleanupDelete (m : ItemMap) (keys : List String) : ItemMap :=
  keys.foldl (fun acc k => mapErase acc k) m

/-- `cleanup` (Sweep): scan phase followed by delete phase on the same
map (no interleaved mutation in the sequential model). -/
def cleanup (c : Cache) (now : Int) : Cache :=
  { c with items := cleanupDelete c.items (cleanupScan c.items now) }

/-- `Set` from `main.go`.  `none` models a call that never returns.
When `readOnly == 1` the call returns at once with no mutation.  Otherwise
it takes the write lock (`c.mu.Lock()`, deferred unlock) and, when
`len(c.items) >= maxItems`, calls `cleanup()` — whose first statement
`c.mu.RLock()` blocks forever against the write lock this very call still
holds (`sync.RWMutex` is not reentrant), so the call self-deadlocks: no
sweep completes and no insertion happens, modelled as `none`.  Below
capacity it stores `{val := v, expiry := now + expiry}` at `k` and
returns. -/
def Set (c : Cache) (k v : String) (maxItems : Int) (expiry : Int)
    (now : Int) : Option Cache :=
  if c.readOnly = 1 then some c
  else if (c.items.length : Int) ≥ maxItems then none
  else some { c with items := mapInsert c.items k { val := v, expiry := now + expiry } }

/-- `Set` from the unnamed source file: the simplified insertion path with
no TTL argument; no-op when `readOnly == 1`, otherwise store
`{val := v, expiry := now + defaultExpiry}` at `k`. -/
def SetDefault (c : Cache) (k v : String) (now : Int) : Cache :=
  if c.readOnly = 1 then c
  else { c with items := mapInsert c.items k { val := v, expiry := now + c.defaultExpiry } }

/-- `Get`: read-only lookup.  Absent, or present with
`now > expiry`, yields `("", false)`; otherwise `(val, true)`. -/
def Get (c : Cache) (k : String) (now : Int) : String × Bool :=
  match mapGet c.items k with
  | none => ("", false)
  | some v => if now > v.expiry then ("", false) else (v.val, true)

/-- `GetOrDelete`: like `Get`, but an entry found with `now > expiry` is
eagerly deleted before returning `("", false)`.  The third component is
the resulting cache state. -/
def GetOrDelete (c : Cache) (k : String) (now : Int) : String × Bool × Cache :=
  match mapGet c.items k with
  | none => ("", false, c)
  | some v =>
    if now > v.expiry then ("", false, c.deleteKey k)
    else (v.val, true, c)

/-- One janitor iteration: wait `2 * defaultExpiry`, then `cleanup` at the
wake-up instant.  The state pairs the cache with the current time. -/
def janitorStep (s : Cache × Int) : Cache × Int :=
  let wake := s.2 + 2 * s.1.defaultExpiry
  (cleanup s.1 wake, wake)

/-- The janitor loop after `n` iterations from state `s`.  Total for every
`n`: the loop never terminates on its own. -/
def janitorRun (s : Cache × Int) : Nat → Cache × Int
  | 0 => s
  | n + 1 => janitorStep (janitorRun s n)

/-! ## Lemmas about the map operations -/

theorem mapGet_mapErase (m : ItemMap) (k k' : String) :
    mapGet (mapErase m k) k' = if k' = k then none else mapGet m k' := by
  induction m with
  | nil => simp [mapErase, mapGet]
  | cons p rest ih =>
    obtain ⟨a, b⟩ := p
    by_cases hak : a = k
    · subst hak
      rw [mapErase, if_pos rfl, ih]
      rcases eq_or_ne k' a with h | h
      · simp [h]
      · simp [mapGet, h, Ne.symm h]
    · rw [mapErase, if_neg hak]
      rcases eq_or_ne a k' with h | h
      · subst h
        simp [mapGet, hak]
      · simp [mapGet, h, ih]

theorem mapGet_mapInsert (m : ItemMap) (k k' : String) (v : item) :
    mapGet (mapInsert m k v) k' = if k' = k then some v else mapGet m k' := by
  rcases eq_or_ne k k' with h | h
  · subst h; simp [mapInsert, mapGet]
  · simp [mapInsert, mapGet, Ne.symm h, mapGet_mapErase, h]

theorem mapGet_cleanupDelete (keys : List String) (m : ItemMap) (k : String) :
    mapGet (cleanupDelete m keys) k = if k ∈ keys then none else mapGet m k := by
  induction keys generalizing m with
  | nil => simp [cleanupDelete]
  | cons a ks ih =>
    simp only [cleanupDelete, List.foldl_cons] at ih ⊢
    rw [ih (mapErase m a), mapGet_mapErase]
    rcases eq_or_ne k a with h | h
    · simp [h]
    · by_cases hks : k ∈ ks <;> simp [h, hks]

theorem cleanupScan_subset_keys (m : ItemMap) (now : Int) (x : String)
    (hx : x ∈ cleanupScan m now) : x ∈ m.map Prod.fst := by
  induction m with
  | nil => simp [cleanupScan] at hx
  | cons p rest ih =>
    obtain ⟨a, b⟩ := p
    rw [cleanupScan] at hx
    by_cases hexp : now > b.expiry
    · rw [if_pos hexp] at hx
      rcases List.mem_cons.mp hx with h | h
      · simp [h]
      · simp [ih h]
    · rw [if_neg hexp] at hx
      simp [ih hx]

theorem mem_cleanupScan (m : ItemMap) (now : Int) (k : String)
    (hnd : keysNodup m) :
    k ∈ cleanupScan m now ↔ ∃ e, mapGet m k = some e ∧ e.expiry < now := by
  induction m with
  | nil => simp [cleanupScan, mapGet]
  | cons p rest ih =>
    obtain ⟨a, b⟩ := p
    have h1 : (a :: rest.map Prod.fst).Nodup := hnd
    have hcons := List.nodup_cons.mp h1
    have hnd' : keysNodup rest := hcons.2
    have hanotin : a ∉ rest.map Prod.fst := hcons.1
    rw [cleanupScan]
    rcases eq_or_ne a k with hak | hak
    · subst hak
      by_cases hexp : now > b.expiry
      · rw [if_pos hexp]
        constructor
        · intro _
          exact ⟨b, by simp [mapGet], hexp⟩
        · intro _
          exact List.mem_cons_self a _
      · rw [if_neg hexp]
        constructor
        · intro hmem
          exact absurd (cleanupScan_subset_keys rest now a hmem) hanotin
        · rintro ⟨e, he, hlt⟩
          rw [mapGet, if_pos rfl] at he
          cases he
          exact absurd hlt hexp
    · have hget : mapGet ((a, b) :: rest) k = mapGet rest k := by
        rw [mapGet, if_neg hak]
      rw [hget]
      by_cases hexp : now > b.expiry
      · rw [if_pos hexp, List.mem_cons]
        rw [← ih hnd']
        simp [Ne.symm hak]
      · rw [if_neg hexp]
        exact ih hnd'

theorem mapGet_cleanup (c : Cache) (now : Int) (k : String)
    (hnd : keysNodup c.items) :
    mapGet (cleanup c now).items k =
      match mapGet c.items k with
      | none => none
      | some e => if e.expiry < now then none else some e := by
  show mapGet (cleanupDelete c.items (cleanupScan c.items now)) k = _
  rw [mapGet_cleanupDelete]
  rcases hget : mapGet c.items k with _ | e
  · simp
  · by_cases hlt : e.expiry < now
    · have : k ∈ cleanupScan c.items now :=
        (mem_cleanupScan c.items now k hnd).mpr ⟨e, hget, hlt⟩
      simp [this, hlt]
    · have : k ∉ cleanupScan c.items now := by
        rw [mem_cleanupScan c.items now k hnd]
        rintro ⟨e', he', hlt'⟩
        rw [hget] at he'
        cases he'
        exact hlt hlt'
      simp [this, hlt]

theorem cleanup_defaultExpiry (c : Cache) (now : Int) :
    (cleanup c now).defaultExpiry = c.defaultExpiry := rfl

theorem cleanup_readOnly (c : Cache) (now : Int) :
    (cleanup c now).readOnly = c.readOnly := rfl

theorem int32wrap_one : int32wrap 1 = 1 := by decide

/-- The `defaultExpiry` field is never changed by the janitor loop. -/
theorem janitorRun_defaultExpiry (s : Cache × Int) (n : Nat) :
    (janitorRun s n).1.defaultExpiry = s.1.defaultExpiry := by
  induction n with
  | zero => rfl
  | succ n ih =>
    show (janitorStep (janitorRun s n)).1.defaultExpiry = _
    rw [janitorStep]
    exact ih

/-! ## The claims -/

/-- C1: the claim says calling Freeze (`SaveAndExit`) any number of times
`n ≥ 1` leaves the cache permanently non-writable.  The code increments
`readOnly` with `atomic.AddInt32` while `Set` tests `readOnly == 1`, so two
`SaveAndExit` calls leave `readOnly = 2` and a subsequent `Set` stores its
entry: the cache is writable again.  This theorem evaluates the code at
that failing input: the `Set` call returns (the empty map is below
capacity, so the deadlocking branch is not reached) having stored the
entry, and `Get` sees it. -/
theorem C1_freeze_twice_writable :
    (SaveAndExit (SaveAndExit (NewCache 20) "x") "y").readOnly = 2 ∧
    Set (SaveAndExit (SaveAndExit (NewCache 20) "x") "y") "a" "b" 10 5 0 =
      some { items := [("a", { val := "b", expiry := 5 })],
             defaultExpiry := 20, readOnly := 2 } ∧
    Get { items := [("a", { val := "b", expiry := 5 })],
          defaultExpiry := 20, readOnly := 2 } "a" 0 = ("b", true) := by
  refine ⟨by decide, by decide, by decide⟩

/-- C2 counterexample: the claim says `Get` returns `found = false` for any
query at or after `now0 + t`.  Inserting at `now0 = 0` with `ttl = 5` and
querying at exactly `now = 5 = now0 + t`, the code's strict test
`now > expiry` fails and the entry is returned with `found = true`. -/
theorem C2_boundary_counterexample :
    Set (NewCache 100) "a" "v" 10 5 0 =
      some { items := [("a", { val := "v", expiry := 5 })],
             defaultExpiry := 100, readOnly := 0 } ∧
    Get { items := [("a", { val := "v", expiry := 5 })],
          defaultExpiry := 100, readOnly := 0 } "a" 5 = ("v", true) := by
  refine ⟨by decide, by decide⟩

/-- C2 (amended): for a key inserted by `Set` with ttl `t` at time `now0`
on an unfrozen cache — i.e. whenever the `Set` call returns a state `c1`,
which it does exactly on the below-capacity branch — `Get` on `c1` returns
`(v, true)` for any query at or before `now0 + t` and `("", false)` for
any query strictly after `now0 + t`; and an entry with `expiresAt < now`
(strictly in the past) is never returned to a caller, even if still
physically present in the map. -/
theorem C2_ttl_correct (c c1 : Cache) (k v : String) (mi ttl now0 now : Int)
    (h : c.readOnly ≠ 1) (hret : Set c k v mi ttl now0 = some c1) :
    (now ≤ now0 + ttl → Get c1 k now = (v, true)) ∧
    (now0 + ttl < now → Get c1 k now = ("", false)) ∧
    (∀ (c' : Cache) (k' : String), (Get c' k' now).2 = true →
      ∃ e, mapGet c'.items k' = some e ∧ now ≤ e.expiry) := by
  rw [Set, if_neg h] at hret
  by_cases hlen : (c.items.length : Int) ≥ mi
  · rw [if_pos hlen] at hret
    cases hret
  · rw [if_neg hlen] at hret
    have hc1 :
        { c with items := mapInsert c.items k { val := v, expiry := now0 + ttl } } = c1 := by
      injection hret
    have hset : mapGet c1.items k = some { val := v, expiry := now0 + ttl } := by
      rw [← hc1]
      show mapGet (mapInsert _ k _) k = _
      rw [mapGet_mapInsert, if_pos rfl]
    refine ⟨?_, ?_, ?_⟩
    · intro hle
      simp only [Get, hset]
      rw [if_neg (show ¬ now > now0 + ttl by omega)]
    · intro hlt
      simp only [Get, hset]
      rw [if_pos (show now > now0 + ttl by omega)]
    · intro c' k' hfound
      rcases hg : mapGet c'.items k' with _ | e
      · simp [Get, hg] at hfound
      · by_cases hexp : now > e.expiry
        · simp [Get, hg, hexp] at hfound
        · exact ⟨e, rfl, by omega⟩

/-- C2 witness: concrete insertion at `now0 = 0`, `ttl = 5` (the `Set`
call returns the shown state); query at 3 sees the value, query at 6 does
not, and a successful `Get` exhibits an unexpired stored entry. -/
theorem C2_ttl_correct_witness :
    Get { items := [("a", { val := "v", expiry := 5 })],
          defaultExpiry := 50, readOnly := 0 } "a" 3 = ("v", true) ∧
    Get { items := [("a", { val := "v", expiry := 5 })],
          defaultExpiry := 50, readOnly := 0 } "a" 6 = ("", false) ∧
    (∃ e, mapGet [("a", { val := "v", expiry := 5 })] "a" = some e ∧
      (3 : Int) ≤ e.expiry) :=
  ⟨(C2_ttl_correct (NewCache 50)
      { items := [("a", { val := "v", expiry := 5 })],
        defaultExpiry := 50, readOnly := 0 }
      "a" "v" 10 5 0 3 (by decide) (by decide)).1 (by decide),
   (C2_ttl_correct (NewCache 50)
      { items := [("a", { val := "v", expiry := 5 })],
        defaultExpiry := 50, readOnly := 0 }
      "a" "v" 10 5 0 6 (by decide) (by decide)).2.1 (by decide),
   (C2_ttl_correct (NewCache 50)
      { items := [("a", { val := "v", expiry := 5 })],
        defaultExpiry := 50, readOnly := 0 }
      "a" "v" 10 5 0 3 (by decide) (by decide)).2.2
     { items := [("a", { val := "v", expiry := 5 })],
       defaultExpiry := 50, readOnly := 0 } "a" (by decide)⟩

/-- C3 counterexample: the claim says Sweep removes every entry with
`expiresAt <= now`.  An entry with `expiresAt = 5` swept at exactly
`now = 5` survives, because the scan's test `now > expiry` is strict. -/
theorem C3_boundary_counterexample :
    mapGet (cleanup { items := [("a", { val := "v", expiry := 5 })],
                      defaultExpiry := 100, readOnly := 0 } 5).items "a" =
      some { val := "v", expiry := 5 } := by
  decide

/-- C3 (amended): on a map with distinct keys (as every Go map has),
`cleanup` removes exactly the entries with `expiresAt < now` strictly
before the sweep instant: every such entry is removed, every entry with
`now ≤ expiresAt` is kept unchanged, and no binding appears for a key
that was absent.  Moreover the delete phase deletes exactly the keys
collected by the scan phase: on any map `m'` (e.g. one extended by inserts
after the scan), a key not collected by the scan keeps its binding. -/
theorem C3_cleanup_exact (c : Cache) (now : Int) (hnd : keysNodup c.items) :
    (∀ k e, mapGet c.items k = some e → e.expiry < now →
      mapGet (cleanup c now).items k = none) ∧
    (∀ k e, mapGet c.items k = some e → now ≤ e.expiry →
      mapGet (cleanup c now).items k = some e) ∧
    (∀ k, mapGet c.items k = none → mapGet (cleanup c now).items k = none) ∧
    (∀ (m' : ItemMap) (k : String), k ∉ cleanupScan c.items now →
      mapGet (cleanupDelete m' (cleanupScan c.items now)) k = mapGet m' k) := by
  refine ⟨?_, ?_, ?_, ?_⟩
  · intro k e hk he
    rw [mapGet_cleanup c now k hnd, hk]
    simp [he]
  · intro k e hk he
    have hnl : ¬ e.expiry < now := by omega
    rw [mapGet_cleanup c now k hnd, hk]
    simp [hnl]
  · intro k hk
    rw [mapGet_cleanup c now k hnd, hk]
  · intro m' k hk
    rw [mapGet_cleanupDelete, if_neg hk]

/-- C3 witness: a two-entry cache with `"a" ↦ expiry 5` and
`"b" ↦ expiry 20`, swept at `now = 10`: `"a"` is removed and `"b"` kept. -/
theorem C3_cleanup_exact_witness :
    keysNodup [("b", { val := "w", expiry := 20 }),
               ("a", { val := "v", expiry := 5 })] ∧
    mapGet (cleanup { items := [("b", { val := "w", expiry := 20 }),
                                ("a", { val := "v", expiry := 5 })],
                      defaultExpiry := 100, readOnly := 0 } 10).items "a" = none ∧
    mapGet (cleanup { items := [("b", { val := "w", expiry := 20 }),
                                ("a", { val := "v", expiry := 5 })],
                      defaultExpiry := 100, readOnly := 0 } 10).items "b" =
      some { val := "w", expiry := 20 } := by
  refine ⟨by decide, ?_, ?_⟩
  · exact (C3_cleanup_exact _ 10 (by decide)).1 "a"
      { val := "v", expiry := 5 } (by decide) (by decide)
  · exact (C3_cleanup_exact _ 10 (by decide)).2.1 "b"
      { val := "w", expiry := 20 } (by decide) (by decide)

/-- C4: the claim (with the spec) says that on an unfrozen cache whose
entry count is at least `maxEntries`, `Set` first runs Sweep and then
unconditionally inserts, succeeding even when the sweep reclaimed
nothing.  In the code that branch never does either: `Set` holds the
write lock when it calls `cleanup()`, whose opening `c.mu.RLock()` on the
same non-reentrant `sync.RWMutex` blocks forever, so the call
self-deadlocks.  This theorem evaluates the code at the failing input —
an unfrozen one-entry cache with `maxItems = 1`: the `Set` never returns
(`none`) — and contrasts it with the below-capacity branch
(`maxItems = 2`), where the insertion does happen. -/
theorem C4_capacity_branch_deadlocks :
    Set { items := [("a", { val := "v", expiry := 5 })],
          defaultExpiry := 5, readOnly := 0 } "b" "w" 1 7 3 = none ∧
    Set { items := [("a", { val := "v", expiry := 5 })],
          defaultExpiry := 5, readOnly := 0 } "b" "w" 2 7 3 =
      some { items := [("b", { val := "w", expiry := 10 }),
                       ("a", { val := "v", expiry := 5 })],
             defaultExpiry := 5, readOnly := 0 } := by
  refine ⟨by decide, by decide⟩

/-- C5: when `k` is present but expired (`expiry < now`), `GetOrDelete`
returns `("", false)` and deletes exactly `k` (every other key keeps its
binding), while a plain `Get` on the same expired key returns
`("", false)` without touching the map (`Get` is a pure observation: the
source acquires only the read lock and performs no write). -/
theorem C5_getordelete_eager (c : Cache) (k : String) (now : Int) (e : item)
    (h1 : mapGet c.items k = some e) (h2 : e.expiry < now) :
    GetOrDelete c k now = ("", false, { c with items := mapErase c.items k }) ∧
    mapGet (mapErase c.items k) k = none ∧
    (∀ k', k' ≠ k → mapGet (mapErase c.items k) k' = mapGet c.items k') ∧
    Get c k now = ("", false) := by
  refine ⟨?_, ?_, ?_, ?_⟩
  · simp only [GetOrDelete, h1]
    rw [if_pos (by omega)]
    rfl
  · rw [mapGet_mapErase, if_pos rfl]
  · intro k' hk'
    rw [mapGet_mapErase, if_neg hk']
  · simp only [Get, h1]
    rw [if_pos (by omega)]

/-- C5 witness: a singleton cache whose only entry expired at 5, queried
at 10: `GetOrDelete` empties the map, the other-keys frame holds, and
`Get` reports absence. -/
theorem C5_getordelete_eager_witness :
    GetOrDelete { items := [("a", { val := "v", expiry := 5 })],
                  defaultExpiry := 100, readOnly := 0 } "a" 10 =
      ("", false, { items := [], defaultExpiry := 100, readOnly := 0 }) ∧
    Get { items := [("a", { val := "v", expiry := 5 })],
          defaultExpiry := 100, readOnly := 0 } "a" 10 = ("", false) := by
  have h := C5_getordelete_eager
    { items := [("a", { val := "v", expiry := 5 })],
      defaultExpiry := 100, readOnly := 0 } "a" 10
    { val := "v", expiry := 5 } (by decide) (by decide)
  exact ⟨h.1, h.2.2.2⟩

/-- C6: freezing a never-frozen cache once sets `readOnly` to 1, and then
every `Set` call, with any arguments, returns normally (`some`, before
ever touching the lock, so the deadlocking branch is unreachable) leaving
the state exactly unchanged — a silent no-op, no error raised. -/
theorem C6_set_after_freeze_noop (c : Cache) (h : c.readOnly = 0)
    (arg k v : String) (mi ttl now : Int) :
    Set (SaveAndExit c arg) k v mi ttl now = some (SaveAndExit c arg) := by
  have hro : (SaveAndExit c arg).readOnly = 1 := by
    show int32wrap (c.readOnly + 1) = 1
    rw [h]
    exact int32wrap_one
  rw [Set, if_pos hro]

/-- C6 witness: a fresh cache frozen once drops a concrete `Set`. -/
theorem C6_set_after_freeze_noop_witness :
    Set (SaveAndExit (NewCache 5) "x") "a" "v" 10 7 3 =
      some (SaveAndExit (NewCache 5) "x") :=
  C6_set_after_freeze_noop (NewCache 5) (by decide) "x" "a" "v" 10 7 3

/-- C7: the simplified insertion path (the `Set(k, v)` of the unnamed
source file), on an unfrozen cache, stores `k` with
`expiresAt = now + defaultExpiry`, the construction-time default TTL. -/
theorem C7_setdefault_uses_default_ttl (c : Cache) (k v : String) (now : Int)
    (h : c.readOnly ≠ 1) :
    mapGet (SetDefault c k v now).items k =
      some { val := v, expiry := now + c.defaultExpiry } := by
  rw [SetDefault, if_neg h]
  show mapGet (mapInsert _ k _) k = _
  rw [mapGet_mapInsert, if_pos rfl]

/-- C7 witness: default TTL 7, insertion at `now = 3` stores expiry 10. -/
theorem C7_setdefault_uses_default_ttl_witness :
    mapGet (SetDefault (NewCache 7) "a" "v" 3).items "a" =
      some { val := "v", expiry := 10 } :=
  C7_setdefault_uses_default_ttl (NewCache 7) "a" "v" 3 (by decide)

/-- C8: every iteration of the janitor loop advances the clock by exactly
`2 * defaultExpiry` (the default TTL is never changed by the loop) and
changes the cache state by exactly one `cleanup` at the wake-up instant —
nothing else.  `janitorRun` is total in the iteration count: the loop has
an `n+1`-st iteration after every `n`-th, i.e. it never stops. -/
theorem C8_janitor_loop (s : Cache × Int) (n : Nat) :
    (janitorRun s (n + 1)).2 = (janitorRun s n).2 + 2 * s.1.defaultExpiry ∧
    (janitorRun s (n + 1)).1 =
      cleanup (janitorRun s n).1 ((janitorRun s n).2 + 2 * s.1.defaultExpiry) := by
  have hd := janitorRun_defaultExpiry s n
  constructor
  · show (janitorStep (janitorRun s n)).2 = _
    rw [janitorStep, hd]
  · show (janitorStep (janitorRun s n)).1 = _
    rw [janitorStep, hd]

/-- C9: whenever `Get` or `GetOrDelete` reports `found = false` — key
absent or entry expired — the returned value is the empty string, never
the stored payload. -/
theorem C9_notfound_empty_value (c : Cache) (k : String) (now : Int) :
    ((Get c k now).2 = false → (Get c k now).1 = "") ∧
    ((GetOrDelete c k now).2.1 = false → (GetOrDelete c k now).1 = "") := by
  constructor
  · rcases hg : mapGet c.items k with _ | e
    · intro _
      simp [Get, hg]
    · simp only [Get, hg]
      split_ifs <;> simp
  · rcases hg : mapGet c.items k with _ | e
    · intro _
      simp [GetOrDelete, hg]
    · simp only [GetOrDelete, hg]
      split_ifs <;> simp

/-- C9 witness: looking up a key absent from a fresh cache returns the
empty string from both operations. -/
theorem C9_notfound_empty_value_witness :
    (Get (NewCache 5) "a" 0).1 = "" ∧ (GetOrDelete (NewCache 5) "a" 0).1 = "" :=
  ⟨(C9_notfound_empty_value (NewCache 5) "a" 0).1 (by decide),
   (C9_notfound_empty_value (NewCache 5) "a" 0).2 (by decide)⟩

/-- C10: `SaveAndExit` never reads its string argument: for any starting
state, any two argument values produce identical resulting states. -/
theorem C10_saveandexit_ignores_argument (c : Cache) (k1 k2 : String) :
    SaveAndExit c k1 = SaveAndExit c k2 := rfl

end GoCache
